import Mathlib

/-!
Verification of the deterministic data-quality scoring engine of this
repository.  The five dimension calculators, the date-column detector and the
composite `calculateDQS` are shallowly embedded from
`backend/src/scoring-engine.ts`; the weighted composite engine
(`computeDQS`) and the convenience wrapper `computeAllScores` live in
`data-quality-functions.js`, a file whose source is not part of this tree
(only its tests, documentation and callers are), so those two are modelled
from the specification and are marked as such.

Conventions of the embedding: JavaScript numbers are modelled as rationals
(`ℚ`), `Math.round` as `jround` (floor of `x + 1/2`, which is JavaScript's
round-half-up), CSV rows as association lists from column names to string
cell values (`row[col]` returning `undefined` is modelled by `rowGet`
returning `none`), and `new Date(s)` / `Date.now` are abstracted by an
arbitrary parse function `String → Option ℚ` and a rational `now` (epoch
milliseconds), since real date parsing and the wall clock are outside the
embedded fragment.
-/

/-- JavaScript's `Math.round` for rationals: round half toward positive
infinity (floor of `q + 1/2`, written through the executable `Rat.floor`). -/
def jround (q : ℚ) : ℤ := (q + 1/2).floor

/-- Clamp an integer score into `[0, 100]`. -/
def clampScore (z : ℤ) : ℤ := max 0 (min z 100)

/-- Model of JavaScript `String.prototype.trim`: drop leading and trailing
whitespace. -/
def jsTrim (s : String) : String :=
  String.mk (((s.data.dropWhile Char.isWhitespace).reverse.dropWhile
    Char.isWhitespace).reverse)

/-- Model of JavaScript `String.prototype.toLowerCase`. -/
def lowerStr (s : String) : String := String.mk (s.data.map Char.toLower)

/-- Does the second character list start with the first one? -/
def strStarts : List Char → List Char → Bool
  | [], _ => true
  | _ :: _, [] => false
  | a :: as, b :: bs => a == b && strStarts as bs

/-- Model of JavaScript `String.prototype.includes`: contiguous containment
of the first character list inside the second. -/
def strHas (needle : List Char) : List Char → Bool
  | [] => strStarts needle []
  | c :: cs => strStarts needle (c :: cs) || strHas needle cs

/-- A CSV row: an association list from column names to string cell values
(the embedding of the `CSVRow` string-index signature). -/
abbrev Row := List (String × String)

/-- JavaScript property access `row[col]`: `none` models `undefined`. -/
def rowGet : Row → String → Option String
  | [], _ => none
  | (k, v) :: rest, col => if col = k then some v else rowGet rest col

/-- The idiom `String(row[col] || "")` of the source: a missing key reads as
the empty string. -/
def getCell (row : Row) (col : String) : String := (rowGet row col).getD ""

/-- The non-empty-cell test of `calculateCompleteness`:
`value !== undefined && value !== null && String(value).trim() !== ""`. -/
def cellNonEmpty (row : Row) (col : String) : Bool :=
  match rowGet row col with
  | none => false
  | some v => decide (jsTrim v ≠ "")

/-- The per-column value collection used by `calculateUniqueness` and
`calculateConsistency`:
`rows.map((row) => String(row[col] || "").trim()).filter((v) => v !== "")`. -/
def colValues (rows : List Row) (col : String) : List String :=
  (rows.map fun row => jsTrim (getCell row col)).filter fun v => decide (v ≠ "")

/-- Total number of non-empty cells counted by `calculateCompleteness`. -/
def nonEmptyCellCount (rows : List Row) (columns : List String) : Nat :=
  (rows.map fun row => (columns.filter fun col => cellNonEmpty row col).length).sum

/-- Embedding of `calculateCompleteness` from `scoring-engine.ts`. -/
def calculateCompleteness (rows : List Row) (columns : List String) : ℤ :=
  if rows = [] ∨ columns = [] then 0
  else
    let totalCells := rows.length * columns.length
    if totalCells = 0 then 0
    else jround ((nonEmptyCellCount rows columns : ℚ) / (totalCells : ℚ) * 100)

/-- Per-column uniqueness ratio of `calculateUniqueness`:
`values.length > 0 ? (uniqueValues.size / values.length) * 100 : 100`. -/
def perColUniq (rows : List Row) (col : String) : ℚ :=
  let values := colValues rows col
  if 0 < values.length then ((values.dedup.length : ℚ) / (values.length : ℚ)) * 100
  else 100

/-- Embedding of `calculateUniqueness` from `scoring-engine.ts`. -/
def calculateUniqueness (rows : List Row) (columns : List String) : ℤ :=
  if rows = [] ∨ columns = [] then 0
  else
    let totalUniqueness := (columns.map (perColUniq rows)).sum
    if columns.length = 0 then 0
    else jround (totalUniqueness / (columns.length : ℚ))

/-- Per-column length-regularity ratio of `calculateConsistency`: mean
absolute deviation of the value lengths over `max (mean length) 1`. -/
def perColCons (rows : List Row) (col : String) : ℚ :=
  let values := colValues rows col
  if values = [] then 100
  else
    let lengths : List ℚ := values.map fun v => (v.length : ℚ)
    let avgLength := lengths.sum / (lengths.length : ℚ)
    let deviation := (lengths.map fun len => |len - avgLength|).sum / (lengths.length : ℚ)
    max 0 (100 - deviation / max avgLength 1 * 100)

/-- Embedding of `calculateConsistency` from `scoring-engine.ts`. -/
def calculateConsistency (rows : List Row) (columns : List String) : ℤ :=
  if rows = [] ∨ columns = [] then 0
  else
    let totalConsistency := (columns.map (perColCons rows)).sum
    if columns.length = 0 then 0
    else jround (totalConsistency / (columns.length : ℚ))

/-- Embedding of `calculateValidity` from `scoring-engine.ts`: the fraction
of rows whose first-column (key-field) trimmed value is non-empty. -/
def calculateValidity (rows : List Row) (columns : List String) : ℤ :=
  if rows = [] then 0
  else
    match columns with
    | [] => 0
    | keyColumn :: _ =>
      let validRows := rows.filter fun row => decide (jsTrim (getCell row keyColumn) ≠ "")
      jround ((validRows.length : ℚ) / (rows.length : ℚ) * 100)

/-- The list of per-row ages (in hours, relative to `now`) accumulated by
`calculateTimeliness`: empty and unparsable values are skipped. -/
def timelinessAges (parseDate : String → Option ℚ) (now : ℚ)
    (rows : List Row) (dateColumnName : String) : List ℚ :=
  rows.filterMap fun row =>
    let dateValue := jsTrim (getCell row dateColumnName)
    if dateValue = "" then none
    else (parseDate dateValue).map fun t => (now - t) / 3600000

/-- Embedding of `calculateTimeliness` from `scoring-engine.ts`,
parameterized by the date parser and the wall-clock time `now`. -/
def calculateTimeliness (parseDate : String → Option ℚ) (now : ℚ)
    (rows : List Row) (dateColumnName : String) : ℤ :=
  if rows = [] then 0
  else
    let ages := timelinessAges parseDate now rows dateColumnName
    if ages = [] then 50
    else
      let avgAgeHours := ages.sum / (ages.length : ℚ)
      if avgAgeHours < 1 then 100
      else if avgAgeHours < 6 then 95
      else if avgAgeHours < 24 then 85
      else if avgAgeHours < 72 then 70
      else if avgAgeHours < 168 then 50
      else 30

/-- The fixed keyword list of `detectDateColumn`. -/
def dateKeywords : List String :=
  ["date", "time", "timestamp", "created", "updated", "modified"]

/-- The qualification test of `detectDateColumn` for one column: its
lower-cased name contains a date keyword and more than half of the first (up
to) ten sampled values parse as dates. -/
def colQualifies (parseDate : String → Option ℚ) (rows : List Row)
    (col : String) : Bool :=
  (dateKeywords.any fun kw => strHas kw.data (lowerStr col).data) &&
  (let sampleValues := (rows.take 10).map fun r => jsTrim (getCell r col)
   let dateLikeCount :=
     (sampleValues.filter fun v => decide (v ≠ "") && (parseDate v).isSome).length
   decide ((sampleValues.length : ℚ) * (5/10) < (dateLikeCount : ℚ)))

/-- Embedding of `detectDateColumn` from `scoring-engine.ts`: the first
qualifying column in definition order. -/
def detectDateColumn (parseDate : String → Option ℚ) (rows : List Row)
    (columns : List String) : Option String :=
  if rows = [] then none
  else columns.find? (colQualifies parseDate rows)

/-- Embedding of the `DimensionScores` interface: four required dimensions
and an optional timeliness. -/
structure DimensionScores where
  completeness : ℤ
  uniqueness : ℤ
  consistency : ℤ
  validity : ℤ
  timeliness : Option ℤ
deriving DecidableEq, Repr

/-- Embedding of the `ScoringMetadata` interface. -/
structure ScoringMetadata where
  columns : List String
  rowCount : Nat
  columnCount : Nat
  hasDateColumn : Bool
  dateColumnName : Option String
deriving DecidableEq, Repr

/-- Embedding of `computeScores` from `scoring-engine.ts`: the four required
dimensions, plus timeliness when the metadata carries a date column. -/
def computeScores (parseDate : String → Option ℚ) (now : ℚ)
    (rows : List Row) (metadata : ScoringMetadata) : DimensionScores :=
  { completeness := calculateCompleteness rows metadata.columns
    uniqueness := calculateUniqueness rows metadata.columns
    consistency := calculateConsistency rows metadata.columns
    validity := calculateValidity rows metadata.columns
    timeliness :=
      match metadata.hasDateColumn, metadata.dateColumnName with
      | true, some d => some (calculateTimeliness parseDate now rows d)
      | _, _ => none }

/-- Embedding of `calculateDQS` from `scoring-engine.ts`: the plain rounded
mean of the dimension scores that are present. -/
def calculateDQS (scores : DimensionScores) : ℤ :=
  let dims := ([some scores.completeness, some scores.uniqueness,
    some scores.consistency, some scores.validity,
    scores.timeliness] : List (Option ℤ)).filterMap id
  if dims.length = 0 then 0
  else jround ((dims.sum : ℚ) / (dims.length : ℚ))

/-- The column extractor: keys of the first row, in order (used by
`prepareMetadata` via `Object.keys(rows[0])`). -/
def extractColumns (rows : List Row) : List String :=
  match rows with
  | [] => []
  | r :: _ => r.map Prod.fst

/-- Embedding of `prepareMetadata` from `scoring-engine.ts`. -/
def prepareMetadata (parseDate : String → Option ℚ) (rows : List Row) :
    ScoringMetadata :=
  match rows with
  | [] => ⟨[], 0, 0, false, none⟩
  | _ =>
    let columns := extractColumns rows
    let d := detectDateColumn parseDate rows columns
    ⟨columns, rows.length, columns.length, d.isSome, d⟩

/-- Modelled from the spec: `computeTimeliness` of `data-quality-functions.js`
is absent from the source tree (only its tests, docs and callers are
present).  Per spec section 4.7 it auto-detects the date column over the keys
of the first row and returns the neutral score 50 when no date column was
detected or the dataset is empty; otherwise it scores exactly as the embedded
`calculateTimeliness`. -/
def computeTimeliness (parseDate : String → Option ℚ) (now : ℚ)
    (rows : List Row) : ℤ :=
  match detectDateColumn parseDate rows (extractColumns rows) with
  | none => 50
  | some col => calculateTimeliness parseDate now rows col

/-- A full dimension-score record as returned by `computeAllScores`
(timeliness always present). -/
structure AllScores where
  completeness : ℤ
  uniqueness : ℤ
  consistency : ℤ
  validity : ℤ
  timeliness : ℤ
deriving DecidableEq, Repr

/-- Modelled from the spec: `computeAllScores` of
`data-quality-functions.js` is absent from the source tree.  Per spec
sections 4.1-4.7 and 6 it extracts the columns from the first row and runs
the five dimension calculators, timeliness with auto-detection and neutral
fallback 50. -/
def computeAllScores (parseDate : String → Option ℚ) (now : ℚ)
    (rows : List Row) : AllScores :=
  let columns := extractColumns rows
  { completeness := calculateCompleteness rows columns
    uniqueness := calculateUniqueness rows columns
    consistency := calculateConsistency rows columns
    validity := calculateValidity rows columns
    timeliness := computeTimeliness parseDate now rows }

/-- Input dimension map of the weighted composite engine: every entry may be
absent (spec section 4.8 treats missing or out-of-range values as 0). -/
structure DQSInput where
  completeness : Option ℚ
  uniqueness : Option ℚ
  consistency : Option ℚ
  validity : Option ℚ
  timeliness : Option ℚ
deriving DecidableEq, Repr

/-- A dimension-name-to-weight map (a dimension omitted from a custom weight
object is weight 0). -/
structure WeightMap where
  completeness : ℚ
  uniqueness : ℚ
  consistency : ℚ
  validity : ℚ
  timeliness : ℚ
deriving DecidableEq, Repr

/-- The default weights of the composite engine. -/
def DEFAULT_WEIGHTS : WeightMap := ⟨25/100, 20/100, 15/100, 25/100, 15/100⟩

/-- Modelled from the spec (section 4.8 step 1): a missing or
out-of-`[0,100]` dimension value is treated as 0. -/
def sanitizeScore : Option ℚ → ℚ
  | none => 0
  | some v => if 0 ≤ v ∧ v ≤ 100 then v else 0

/-- Modelled from the spec (section 4.8 step 2): timeliness is active iff a
numeric value in `[0,100]` is present for it. -/
def hasTimelinessScore : Option ℚ → Bool
  | none => false
  | some v => decide (0 ≤ v ∧ v ≤ 100)

/-- Sum of the four required weights. -/
def sumWeights4 (w : WeightMap) : ℚ :=
  w.completeness + w.uniqueness + w.consistency + w.validity

/-- Modelled from the spec (section 4.8 step 4): when timeliness is inactive
but carries a non-zero configured weight, the four required weights are
scaled up proportionally so that the total becomes their sum plus the
timeliness weight. -/
def redistScale (w : WeightMap) (hasT : Bool) : ℚ :=
  if hasT = false ∧ w.timeliness ≠ 0 ∧ sumWeights4 w ≠ 0 then
    (sumWeights4 w + w.timeliness) / sumWeights4 w
  else 1

/-- Result record of the weighted composite engine. -/
structure CompositeResult where
  dimensions : DQSInput
  DQS : ℤ
deriving DecidableEq, Repr

/-- Modelled from the spec: `computeDQS` of `data-quality-functions.js` is
absent from the source tree (only its tests, docs and callers are present).
Spec section 4.8: sanitize the scores, determine whether timeliness is
active, redistribute an inactive timeliness weight proportionally, return 0
on zero total weight, normalize the weights when the total differs from 1 by
more than 0.001, then round and clamp the weighted sum. -/
def computeDQS (dims : DQSInput) (w : WeightMap) : CompositeResult :=
  let hasT := hasTimelinessScore dims.timeliness
  let scale := redistScale w hasT
  let tw := if hasT = true then w.timeliness else 0
  let totalWeight := sumWeights4 w * scale + tw
  if totalWeight = 0 then ⟨dims, 0⟩
  else
    let norm := if 1/1000 < |totalWeight - 1| then 1 / totalWeight else 1
    let wsum := (sanitizeScore dims.completeness * (w.completeness * scale)
      + sanitizeScore dims.uniqueness * (w.uniqueness * scale)
      + sanitizeScore dims.consistency * (w.consistency * scale)
      + sanitizeScore dims.validity * (w.validity * scale)
      + sanitizeScore dims.timeliness * tw) * norm
    ⟨dims, clampScore (jround wsum)⟩

/-- Claim-side formula: the weighted sum of five in-range scores under the
default weights (which already sum to 1), rounded and clamped. -/
def weightedDefaultDQS (c u co v t : ℚ) : ℤ :=
  clampScore (jround (c * (25/100) + u * (20/100) + co * (15/100)
    + v * (25/100) + t * (15/100)))

/-- Claim-side formula: the weighted average of the four required scores
under the default weights renormalized to sum to 1 (division by 0.85),
rounded and clamped. -/
def weightedFourDefaultDQS (c u co v : ℚ) : ℤ :=
  clampScore (jround ((c * (25/100) + u * (20/100) + co * (15/100)
    + v * (25/100)) / (85/100)))

/-- Claim-side per-column uniqueness, following the spec wording: distinct
trimmed non-empty values over their count, with an empty column counting as
100. -/
def perColUniqSpec (rows : List Row) (col : String) : ℚ :=
  let values := colValues rows col
  if values.length = 0 then 100
  else ((values.toFinset.card : ℚ) / (values.length : ℚ)) * 100

/-- Claim-side uniqueness score: rounded mean of the per-column uniqueness
values, 0 when there are no rows or no columns. -/
def uniquenessSpec (rows : List Row) (columns : List String) : ℤ :=
  if rows = [] ∨ columns = [] then 0
  else jround ((columns.map (perColUniqSpec rows)).sum / (columns.length : ℚ))

/-- Claim-side per-column consistency, following the spec wording: 100 when
no non-empty value exists, 100 when exactly one exists, otherwise the
mean-absolute-deviation formula. -/
def perColConsSpec (rows : List Row) (col : String) : ℚ :=
  match colValues rows col with
  | [] => 100
  | [_] => 100
  | values =>
    let lengths : List ℚ := values.map fun v => (v.length : ℚ)
    let meanLength := lengths.sum / (lengths.length : ℚ)
    let meanDeviation :=
      (lengths.map fun len => |len - meanLength|).sum / (lengths.length : ℚ)
    max 0 (100 - meanDeviation / max meanLength 1 * 100)

/-- Claim-side consistency score: rounded mean of the per-column consistency
values, 0 when there are no rows or no columns. -/
def consistencySpec (rows : List Row) (columns : List String) : ℤ :=
  if rows = [] ∨ columns = [] then 0
  else jround ((columns.map (perColConsSpec rows)).sum / (columns.length : ℚ))

/-- An integer score lying in the closed interval `[0, 100]`. -/
def scoreInRange (z : ℤ) : Prop := 0 ≤ z ∧ z ≤ 100

/-- The executable `jround` agrees with the floor-based description of
JavaScript rounding. -/
lemma jround_eq_floor (q : ℚ) : jround q = ⌊q + 1/2⌋ := by
  rw [jround, Rat.floor_def', ← Rat.floor_def]

/-- Rounding keeps a rational from `[0, 100]` inside the integer range
`[0, 100]`. -/
lemma jround_range {q : ℚ} (h0 : 0 ≤ q) (h1 : q ≤ 100) : scoreInRange (jround q) := by
  rw [scoreInRange, jround_eq_floor]
  constructor
  · exact Int.le_floor.2 (by push_cast; linarith)
  · have h2 : ((⌊q + 1/2⌋ : ℤ) : ℚ) ≤ q + 1/2 := Int.floor_le _
    have h3 : ((⌊q + 1/2⌋ : ℤ) : ℚ) < 101 := by linarith
    have h4 : (⌊q + 1/2⌋ : ℤ) < 101 := by exact_mod_cast h3
    omega

/-- Clamping always lands in `[0, 100]`. -/
lemma clampScore_range (z : ℤ) : scoreInRange (clampScore z) := by
  rw [scoreInRange, clampScore]
  refine ⟨le_max_left _ _, max_le (by norm_num) (min_le_right _ _)⟩

/-- The mean of a non-empty list of rationals from `[0, 100]` lies in
`[0, 100]`. -/
lemma mean_range {l : List ℚ} (hne : l ≠ []) (h : ∀ x ∈ l, 0 ≤ x ∧ x ≤ 100) :
    0 ≤ l.sum / (l.length : ℚ) ∧ l.sum / (l.length : ℚ) ≤ 100 := by
  have hlen : 0 < (l.length : ℚ) := by
    have hz : l.length ≠ 0 := fun hh => hne (List.length_eq_zero.mp hh)
    exact_mod_cast Nat.pos_of_ne_zero hz
  have hs0 : 0 ≤ l.sum := List.sum_nonneg fun x hx => (h x hx).1
  have hs1 : l.sum ≤ 100 * (l.length : ℚ) := by
    have h2 := List.sum_le_card_nsmul l 100 fun x hx => (h x hx).2
    simpa [nsmul_eq_mul, mul_comm] using h2
  exact ⟨by positivity, by rw [div_le_iff₀ hlen]; linarith⟩

/-- Per-column uniqueness ratios lie in `[0, 100]`. -/
lemma perColUniq_range (rows : List Row) (col : String) :
    0 ≤ perColUniq rows col ∧ perColUniq rows col ≤ 100 := by
  simp only [perColUniq]
  split_ifs with h
  · have hd : ((colValues rows col).dedup.length : ℚ) ≤ ((colValues rows col).length : ℚ) := by
      exact_mod_cast (List.dedup_sublist (colValues rows col)).length_le
    have hlp : (0:ℚ) < ((colValues rows col).length : ℚ) := by exact_mod_cast h
    constructor
    · positivity
    · have hle1 : ((colValues rows col).dedup.length : ℚ) / ((colValues rows col).length : ℚ) ≤ 1 :=
        (div_le_one hlp).2 hd
      calc ((colValues rows col).dedup.length : ℚ) / ((colValues rows col).length : ℚ) * 100
          ≤ 1 * 100 := mul_le_mul_of_nonneg_right hle1 (by norm_num)
        _ = 100 := by norm_num
  · norm_num

/-- Per-column consistency ratios lie in `[0, 100]`. -/
lemma perColCons_range (rows : List Row) (col : String) :
    0 ≤ perColCons rows col ∧ perColCons rows col ≤ 100 := by
  simp only [perColCons]
  split_ifs with h
  · norm_num
  · set values := colValues rows col with hv
    set lengths : List ℚ := values.map fun v => (v.length : ℚ) with hl
    set avgLength := lengths.sum / (lengths.length : ℚ) with ha
    have hdev0 : 0 ≤ (lengths.map fun len => |len - avgLength|).sum / (lengths.length : ℚ) := by
      have : 0 ≤ (lengths.map fun len => |len - avgLength|).sum :=
        List.sum_nonneg fun x hx => by
          obtain ⟨y, _, rfl⟩ := List.mem_map.mp hx
          exact abs_nonneg _
      positivity
    have hmax1 : (1:ℚ) ≤ max avgLength 1 := le_max_right _ _
    have hq0 : 0 ≤ (lengths.map fun len => |len - avgLength|).sum / (lengths.length : ℚ)
        / max avgLength 1 * 100 := by positivity
    constructor
    · exact le_max_left _ _
    · exact max_le (by norm_num) (by linarith)

/-- The non-empty-cell count never exceeds the total cell count. -/
lemma nonEmptyCellCount_le (rows : List Row) (columns : List String) :
    nonEmptyCellCount rows columns ≤ rows.length * columns.length := by
  induction rows with
  | nil => simp [nonEmptyCellCount]
  | cons r t ih =>
    simp only [nonEmptyCellCount, List.map_cons, List.sum_cons, List.length_cons] at ih ⊢
    have h1 : (columns.filter fun col => cellNonEmpty r col).length ≤ columns.length :=
      List.length_filter_le _ _
    calc (columns.filter fun col => cellNonEmpty r col).length
        + (t.map fun row => (columns.filter fun col => cellNonEmpty row col).length).sum
      ≤ columns.length + t.length * columns.length := Nat.add_le_add h1 ih
      _ = (t.length + 1) * columns.length := by ring

/-- `calculateCompleteness` always returns an integer in `[0, 100]`. -/
lemma calculateCompleteness_range (rows : List Row) (columns : List String) :
    scoreInRange (calculateCompleteness rows columns) := by
  simp only [calculateCompleteness]
  split_ifs with h1 h2
  · exact ⟨le_refl 0, by norm_num⟩
  · exact ⟨le_refl 0, by norm_num⟩
  · have hT : (0:ℚ) < ((rows.length * columns.length : ℕ) : ℚ) := by
      exact_mod_cast Nat.pos_of_ne_zero h2
    have hle : ((nonEmptyCellCount rows columns : ℕ) : ℚ)
        ≤ ((rows.length * columns.length : ℕ) : ℚ) := by
      exact_mod_cast nonEmptyCellCount_le rows columns
    have hle1 : ((nonEmptyCellCount rows columns : ℕ) : ℚ)
        / ((rows.length * columns.length : ℕ) : ℚ) ≤ 1 := (div_le_one hT).2 hle
    have h100 : ((nonEmptyCellCount rows columns : ℕ) : ℚ)
        / ((rows.length * columns.length : ℕ) : ℚ) * 100 ≤ 100 := by
      calc ((nonEmptyCellCount rows columns : ℕ) : ℚ)
          / ((rows.length * columns.length : ℕ) : ℚ) * 100
          ≤ 1 * 100 := mul_le_mul_of_nonneg_right hle1 (by norm_num)
        _ = 100 := by norm_num
    have h0 : (0:ℚ) ≤ ((nonEmptyCellCount rows columns : ℕ) : ℚ)
        / ((rows.length * columns.length : ℕ) : ℚ) * 100 := by positivity
    exact jround_range h0 h100

/-- `calculateUniqueness` always returns an integer in `[0, 100]`. -/
lemma calculateUniqueness_range (rows : List Row) (columns : List String) :
    scoreInRange (calculateUniqueness rows columns) := by
  simp only [calculateUniqueness]
  split_ifs with h1 h2
  · exact ⟨le_refl 0, by norm_num⟩
  · exact ⟨le_refl 0, by norm_num⟩
  · have hcols : columns ≠ [] := fun hh => h1 (Or.inr hh)
    have hmean := mean_range (l := columns.map (perColUniq rows))
      (by simpa using hcols)
      (by intro x hx
          obtain ⟨col, _, rfl⟩ := List.mem_map.mp hx
          exact perColUniq_range rows col)
    rw [List.length_map] at hmean
    exact jround_range hmean.1 hmean.2

/-- `calculateConsistency` always returns an integer in `[0, 100]`. -/
lemma calculateConsistency_range (rows : List Row) (columns : List String) :
    scoreInRange (calculateConsistency rows columns) := by
  simp only [calculateConsistency]
  split_ifs with h1 h2
  · exact ⟨le_refl 0, by norm_num⟩
  · exact ⟨le_refl 0, by norm_num⟩
  · have hcols : columns ≠ [] := fun hh => h1 (Or.inr hh)
    have hmean := mean_range (l := columns.map (perColCons rows))
      (by simpa using hcols)
      (by intro x hx
          obtain ⟨col, _, rfl⟩ := List.mem_map.mp hx
          exact perColCons_range rows col)
    rw [List.length_map] at hmean
    exact jround_range hmean.1 hmean.2

/-- `calculateValidity` always returns an integer in `[0, 100]`. -/
lemma calculateValidity_range (rows : List Row) (columns : List String) :
    scoreInRange (calculateValidity rows columns) := by
  cases columns with
  | nil =>
    simp only [calculateValidity]
    split_ifs <;> exact ⟨le_refl 0, by norm_num⟩
  | cons keyColumn rest =>
    simp only [calculateValidity]
    split_ifs with h1
    · exact ⟨le_refl 0, by norm_num⟩
    · have hR : (0:ℚ) < ((rows.length : ℕ) : ℚ) := by
        have hz : rows.length ≠ 0 := fun hh => h1 (List.length_eq_zero.mp hh)
        exact_mod_cast Nat.pos_of_ne_zero hz
      have hle : (((rows.filter fun row =>
          decide (jsTrim (getCell row keyColumn) ≠ "")).length : ℕ) : ℚ)
          ≤ ((rows.length : ℕ) : ℚ) := by
        exact_mod_cast List.length_filter_le _ rows
      have hle1 : (((rows.filter fun row =>
          decide (jsTrim (getCell row keyColumn) ≠ "")).length : ℕ) : ℚ)
          / ((rows.length : ℕ) : ℚ) ≤ 1 := (div_le_one hR).2 hle
      refine jround_range (by positivity) ?_
      calc (((rows.filter fun row =>
            decide (jsTrim (getCell row keyColumn) ≠ "")).length : ℕ) : ℚ)
          / ((rows.length : ℕ) : ℚ) * 100
          ≤ 1 * 100 := mul_le_mul_of_nonneg_right hle1 (by norm_num)
        _ = 100 := by norm_num

/-- `calculateTimeliness` always returns an integer in `[0, 100]`. -/
lemma calculateTimeliness_range (parseDate : String → Option ℚ) (now : ℚ)
    (rows : List Row) (dateColumnName : String) :
    scoreInRange (calculateTimeliness parseDate now rows dateColumnName) := by
  simp only [calculateTimeliness]
  split_ifs <;> exact ⟨by norm_num, by norm_num⟩

/-- `computeTimeliness` always returns an integer in `[0, 100]`. -/
lemma computeTimeliness_range (parseDate : String → Option ℚ) (now : ℚ)
    (rows : List Row) : scoreInRange (computeTimeliness parseDate now rows) := by
  rw [computeTimeliness]
  cases detectDateColumn parseDate rows (extractColumns rows) with
  | none => exact ⟨by norm_num, by norm_num⟩
  | some col => exact calculateTimeliness_range parseDate now rows col

/-- `computeDQS` always returns a DQS in `[0, 100]`, for every input map and
weight map. -/
lemma computeDQS_range (dims : DQSInput) (w : WeightMap) :
    scoreInRange (computeDQS dims w).DQS := by
  simp only [computeDQS]
  split_ifs <;> first
    | exact ⟨le_refl 0, by norm_num⟩
    | exact clampScore_range _

/-- Two rows are observationally equivalent for the engine when every column
reads the same cell text and the same non-emptiness. -/
def rowEquiv (r1 r2 : Row) : Prop :=
  ∀ col, getCell r1 col = getCell r2 col ∧ cellNonEmpty r1 col = cellNonEmpty r2 col

lemma rowEquiv_refl (r : Row) : rowEquiv r r := fun _ => ⟨rfl, rfl⟩

lemma rowGet_append_none {r1 : Row} (r2 : Row) {col : String}
    (h : rowGet r1 col = none) : rowGet (r1 ++ r2) col = rowGet r2 col := by
  induction r1 with
  | nil => rfl
  | cons p t ih =>
    obtain ⟨pk, pv⟩ := p
    by_cases hc : col = pk
    · simp [rowGet, hc] at h
    · simp only [rowGet, hc, if_false, List.cons_append, if_neg hc] at h ⊢
      exact ih h

lemma rowGet_append_some {r1 : Row} (r2 : Row) {col v : String}
    (h : rowGet r1 col = some v) : rowGet (r1 ++ r2) col = some v := by
  induction r1 with
  | nil => simp [rowGet] at h
  | cons p t ih =>
    obtain ⟨pk, pv⟩ := p
    by_cases hc : col = pk
    · simp only [rowGet, if_pos hc] at h ⊢
      exact h
    · simp only [rowGet, if_neg hc, List.cons_append] at h ⊢
      exact ih h

/-- Appending a binding for a key the row does not have, with the empty
string as value, leaves the row observationally unchanged. -/
lemma rowEquiv_extend (r : Row) (k : String) (h : rowGet r k = none) :
    rowEquiv r (r ++ [(k, "")]) := by
  intro col
  by_cases hck : col = k
  · subst hck
    have h2 : rowGet (r ++ [(col, "")]) col = some "" := by
      rw [rowGet_append_none _ h]
      simp [rowGet]
    rw [getCell, getCell, cellNonEmpty, cellNonEmpty, h, h2]
    exact ⟨rfl, by simp [jsTrim]⟩
  · cases hrg : rowGet r col with
    | none =>
      have h2 : rowGet (r ++ [(k, "")]) col = none := by
        rw [rowGet_append_none _ hrg]
        simp [rowGet, hck]
      rw [getCell, getCell, cellNonEmpty, cellNonEmpty, hrg, h2]
      exact ⟨rfl, rfl⟩
    | some v =>
      have h2 : rowGet (r ++ [(k, "")]) col = some v := rowGet_append_some _ hrg
      rw [getCell, getCell, cellNonEmpty, cellNonEmpty, hrg, h2]
      exact ⟨rfl, rfl⟩

lemma map_eq_of_forall₂ {α : Type} (f : Row → α)
    (hf : ∀ a b, rowEquiv a b → f a = f b) {l1 l2 : List Row}
    (h : List.Forall₂ rowEquiv l1 l2) : l1.map f = l2.map f := by
  induction h with
  | nil => rfl
  | cons h1 _ ih => simp only [List.map_cons, hf _ _ h1, ih]

lemma filter_length_eq_of_forall₂ (p : Row → Bool)
    (hp : ∀ a b, rowEquiv a b → p a = p b) {l1 l2 : List Row}
    (h : List.Forall₂ rowEquiv l1 l2) :
    (l1.filter p).length = (l2.filter p).length := by
  induction h with
  | nil => rfl
  | cons h1 _ ih =>
    simp only [List.filter_cons, hp _ _ h1]
    cases (p _ : Bool) <;> simp [ih]

lemma filterMap_eq_of_forall₂ {α : Type} (f : Row → Option α)
    (hf : ∀ a b, rowEquiv a b → f a = f b) {l1 l2 : List Row}
    (h : List.Forall₂ rowEquiv l1 l2) : l1.filterMap f = l2.filterMap f := by
  induction h with
  | nil => rfl
  | cons h1 _ ih => simp only [List.filterMap_cons, hf _ _ h1, ih]

lemma find?_congr_local {α : Type} (p q : α → Bool) (l : List α)
    (hpq : ∀ x ∈ l, p x = q x) : l.find? p = l.find? q := by
  induction l with
  | nil => rfl
  | cons a t ih =>
    have ha := hpq a (List.mem_cons_self a t)
    by_cases hq : q a = true
    · rw [List.find?_cons_of_pos t (ha.trans hq), List.find?_cons_of_pos t hq]
    · rw [List.find?_cons_of_neg t (by simpa [ha] using hq),
        List.find?_cons_of_neg t (by simpa using hq)]
      exact ih fun x hx => hpq x (List.mem_cons_of_mem a hx)

lemma nil_iff_of_forall₂ {l1 l2 : List Row}
    (h : List.Forall₂ rowEquiv l1 l2) : l1 = [] ↔ l2 = [] := by
  rw [← List.length_eq_zero, ← List.length_eq_zero, h.length_eq]

lemma colValues_congr {l1 l2 : List Row} (h : List.Forall₂ rowEquiv l1 l2)
    (col : String) : colValues l1 col = colValues l2 col := by
  rw [colValues, colValues,
    map_eq_of_forall₂ (fun row => jsTrim (getCell row col))
      (fun a b hab => by simp only [(hab col).1]) h]

lemma nonEmptyCellCount_congr {l1 l2 : List Row} (h : List.Forall₂ rowEquiv l1 l2)
    (columns : List String) :
    nonEmptyCellCount l1 columns = nonEmptyCellCount l2 columns := by
  rw [nonEmptyCellCount, nonEmptyCellCount,
    map_eq_of_forall₂ (fun row => (columns.filter fun col => cellNonEmpty row col).length)
      (fun a b hab => by
        simp only [List.filter_congr (fun c _ => (hab c).2 : ∀ c ∈ columns,
          cellNonEmpty a c = cellNonEmpty b c)]) h]

lemma calculateCompleteness_congr {l1 l2 : List Row}
    (h : List.Forall₂ rowEquiv l1 l2) (columns : List String) :
    calculateCompleteness l1 columns = calculateCompleteness l2 columns := by
  have hlen := h.length_eq
  have hnil := nil_iff_of_forall₂ h
  by_cases h2 : l2 = [] ∨ columns = []
  · have h1' : l1 = [] ∨ columns = [] := by
      rcases h2 with h2 | h2
      · exact Or.inl (hnil.mpr h2)
      · exact Or.inr h2
    rw [calculateCompleteness, calculateCompleteness, if_pos h1', if_pos h2]
  · have h1' : ¬(l1 = [] ∨ columns = []) := fun hc => h2 (by
      rcases hc with hc | hc
      · exact Or.inl (hnil.mp hc)
      · exact Or.inr hc)
    simp only [calculateCompleteness, if_neg h1', if_neg h2, hlen,
      nonEmptyCellCount_congr h columns]

lemma perColUniq_congr {l1 l2 : List Row} (h : List.Forall₂ rowEquiv l1 l2)
    (col : String) : perColUniq l1 col = perColUniq l2 col := by
  rw [perColUniq, perColUniq, colValues_congr h col]

lemma perColCons_congr {l1 l2 : List Row} (h : List.Forall₂ rowEquiv l1 l2)
    (col : String) : perColCons l1 col = perColCons l2 col := by
  rw [perColCons, perColCons, colValues_congr h col]

lemma calculateUniqueness_congr {l1 l2 : List Row}
    (h : List.Forall₂ rowEquiv l1 l2) (columns : List String) :
    calculateUniqueness l1 columns = calculateUniqueness l2 columns := by
  have hnil := nil_iff_of_forall₂ h
  by_cases h2 : l2 = [] ∨ columns = []
  · have h1' : l1 = [] ∨ columns = [] := by
      rcases h2 with h2 | h2
      · exact Or.inl (hnil.mpr h2)
      · exact Or.inr h2
    rw [calculateUniqueness, calculateUniqueness, if_pos h1', if_pos h2]
  · have h1' : ¬(l1 = [] ∨ columns = []) := fun hc => h2 (by
      rcases hc with hc | hc
      · exact Or.inl (hnil.mp hc)
      · exact Or.inr hc)
    simp only [calculateUniqueness, if_neg h1', if_neg h2,
      List.map_congr_left (fun c _ => perColUniq_congr h c : ∀ c ∈ columns,
        perColUniq l1 c = perColUniq l2 c)]

lemma calculateConsistency_congr {l1 l2 : List Row}
    (h : List.Forall₂ rowEquiv l1 l2) (columns : List String) :
    calculateConsistency l1 columns = calculateConsistency l2 columns := by
  have hnil := nil_iff_of_forall₂ h
  by_cases h2 : l2 = [] ∨ columns = []
  · have h1' : l1 = [] ∨ columns = [] := by
      rcases h2 with h2 | h2
      · exact Or.inl (hnil.mpr h2)
      · exact Or.inr h2
    rw [calculateConsistency, calculateConsistency, if_pos h1', if_pos h2]
  · have h1' : ¬(l1 = [] ∨ columns = []) := fun hc => h2 (by
      rcases hc with hc | hc
      · exact Or.inl (hnil.mp hc)
      · exact Or.inr hc)
    simp only [calculateConsistency, if_neg h1', if_neg h2,
      List.map_congr_left (fun c _ => perColCons_congr h c : ∀ c ∈ columns,
        perColCons l1 c = perColCons l2 c)]

lemma calculateValidity_congr {l1 l2 : List Row}
    (h : List.Forall₂ rowEquiv l1 l2) (columns : List String) :
    calculateValidity l1 columns = calculateValidity l2 columns := by
  have hlen := h.length_eq
  have hnil := nil_iff_of_forall₂ h
  cases columns with
  | nil =>
    simp only [calculateValidity]
    by_cases h2 : l2 = []
    · rw [if_pos (hnil.mpr h2), if_pos h2]
    · rw [if_neg (fun hc => h2 (hnil.mp hc)), if_neg h2]
  | cons keyColumn rest =>
    simp only [calculateValidity]
    by_cases h2 : l2 = []
    · rw [if_pos (hnil.mpr h2), if_pos h2]
    · have h1' : ¬ l1 = [] := fun hc => h2 (hnil.mp hc)
      have hcount := filter_length_eq_of_forall₂
        (fun row => decide (jsTrim (getCell row keyColumn) ≠ ""))
        (fun a b hab => by simp only [(hab keyColumn).1]) h
      rw [if_neg h1', if_neg h2, hcount, hlen]

lemma timelinessAges_congr (parseDate : String → Option ℚ) (now : ℚ)
    {l1 l2 : List Row} (h : List.Forall₂ rowEquiv l1 l2) (d : String) :
    timelinessAges parseDate now l1 d = timelinessAges parseDate now l2 d := by
  rw [timelinessAges, timelinessAges,
    filterMap_eq_of_forall₂ _ (fun a b hab => by simp only [(hab d).1]) h]

lemma calculateTimeliness_congr (parseDate : String → Option ℚ) (now : ℚ)
    {l1 l2 : List Row} (h : List.Forall₂ rowEquiv l1 l2) (d : String) :
    calculateTimeliness parseDate now l1 d = calculateTimeliness parseDate now l2 d := by
  have hnil := nil_iff_of_forall₂ h
  by_cases h2 : l2 = []
  · rw [calculateTimeliness, calculateTimeliness, if_pos (hnil.mpr h2), if_pos h2]
  · have h1' : ¬ l1 = [] := fun hc => h2 (hnil.mp hc)
    simp only [calculateTimeliness, if_neg h1', if_neg h2,
      timelinessAges_congr parseDate now h d]

lemma colQualifies_congr (parseDate : String → Option ℚ) {l1 l2 : List Row}
    (h : List.Forall₂ rowEquiv l1 l2) (col : String) :
    colQualifies parseDate l1 col = colQualifies parseDate l2 col := by
  have hs : ((l1.take 10).map fun r => jsTrim (getCell r col))
      = ((l2.take 10).map fun r => jsTrim (getCell r col)) :=
    map_eq_of_forall₂ _ (fun a b hab => by simp only [(hab col).1])
      (List.forall₂_take 10 h)
  rw [colQualifies, colQualifies, hs]

lemma detectDateColumn_congr (parseDate : String → Option ℚ) {l1 l2 : List Row}
    (h : List.Forall₂ rowEquiv l1 l2) (columns : List String) :
    detectDateColumn parseDate l1 columns = detectDateColumn parseDate l2 columns := by
  have hnil := nil_iff_of_forall₂ h
  by_cases h2 : l2 = []
  · rw [detectDateColumn, detectDateColumn, if_pos (hnil.mpr h2), if_pos h2]
  · have h1' : ¬ l1 = [] := fun hc => h2 (hnil.mp hc)
    rw [detectDateColumn, detectDateColumn, if_neg h1', if_neg h2]
    exact find?_congr_local _ _ columns fun c _ => colQualifies_congr parseDate h c

lemma computeTimeliness_congr (parseDate : String → Option ℚ) (now : ℚ)
    {l1 l2 : List Row} (h : List.Forall₂ rowEquiv l1 l2)
    (hcols : extractColumns l1 = extractColumns l2) :
    computeTimeliness parseDate now l1 = computeTimeliness parseDate now l2 := by
  rw [computeTimeliness, computeTimeliness, hcols,
    detectDateColumn_congr parseDate h (extractColumns l2)]
  cases detectDateColumn parseDate l2 (extractColumns l2) with
  | none => rfl
  | some c => exact calculateTimeliness_congr parseDate now h c

/-- The modelled `computeAllScores` is invariant under replacing every row by
an observationally equivalent one, provided the first-row column set is
unchanged. -/
lemma computeAllScores_congr (parseDate : String → Option ℚ) (now : ℚ)
    {l1 l2 : List Row} (h : List.Forall₂ rowEquiv l1 l2)
    (hcols : extractColumns l1 = extractColumns l2) :
    computeAllScores parseDate now l1 = computeAllScores parseDate now l2 := by
  simp only [computeAllScores]
  rw [hcols, calculateCompleteness_congr h, calculateUniqueness_congr h,
    calculateConsistency_congr h, calculateValidity_congr h,
    computeTimeliness_congr parseDate now h hcols]

lemma perColUniq_eq_spec (rows : List Row) (col : String) :
    perColUniq rows col = perColUniqSpec rows col := by
  rw [perColUniq, perColUniqSpec, List.card_toFinset]
  rcases Nat.eq_zero_or_pos (colValues rows col).length with h | h
  · rw [if_neg (by omega), if_pos h]
  · rw [if_pos h, if_neg (by omega)]

lemma perColCons_eq_spec (rows : List Row) (col : String) :
    perColCons rows col = perColConsSpec rows col := by
  cases hv : colValues rows col with
  | nil => simp [perColCons, perColConsSpec, hv]
  | cons v tail =>
    cases tail with
    | nil =>
      simp only [perColCons, perColConsSpec, hv,
        if_neg (List.cons_ne_nil v []), List.map_cons, List.map_nil,
        List.sum_cons, List.sum_nil, List.length_cons, List.length_nil]
      norm_num
    | cons v2 tail2 =>
      simp only [perColCons, perColConsSpec, hv,
        if_neg (List.cons_ne_nil v (v2 :: tail2))]

lemma sanitizeScore_of_range {q : ℚ} (h0 : 0 ≤ q) (h1 : q ≤ 100) :
    sanitizeScore (some q) = q := by
  rw [sanitizeScore]
  exact if_pos ⟨h0, h1⟩

lemma hasTimelinessScore_of_range {q : ℚ} (h0 : 0 ≤ q) (h1 : q ≤ 100) :
    hasTimelinessScore (some q) = true := by
  simp only [hasTimelinessScore, decide_eq_true_eq]
  exact ⟨h0, h1⟩

/-- C1 (amended): for five present dimension scores in `[0,100]`, the
spec-modelled weighted engine `computeDQS` with the default weights returns
exactly the claimed normalized weighted sum, rounded and clamped; the
`calculateDQS` of `scoring-engine.ts`, by contrast, returns the rounded
unweighted mean of the five scores. -/
theorem C1_weighted_default_vs_plain_mean (c u co v t : ℤ)
    (hc : scoreInRange c) (hu : scoreInRange u) (hco : scoreInRange co)
    (hv : scoreInRange v) (ht : scoreInRange t) :
    (computeDQS ⟨some (c:ℚ), some (u:ℚ), some (co:ℚ), some (v:ℚ), some (t:ℚ)⟩
        DEFAULT_WEIGHTS).DQS
      = weightedDefaultDQS (c:ℚ) (u:ℚ) (co:ℚ) (v:ℚ) (t:ℚ)
    ∧ calculateDQS ⟨c, u, co, v, some t⟩
      = jround (((c + u + co + v + t : ℤ) : ℚ) / 5)
    ∧ ∀ d : DQSInput, (computeDQS d ⟨0, 0, 0, 0, 0⟩).DQS = 0 := by
  obtain ⟨hc0, hc1⟩ := hc
  obtain ⟨hu0, hu1⟩ := hu
  obtain ⟨hco0, hco1⟩ := hco
  obtain ⟨hv0, hv1⟩ := hv
  obtain ⟨ht0, ht1⟩ := ht
  have qc0 : (0:ℚ) ≤ (c:ℚ) := by exact_mod_cast hc0
  have qc1 : (c:ℚ) ≤ 100 := by exact_mod_cast hc1
  have qu0 : (0:ℚ) ≤ (u:ℚ) := by exact_mod_cast hu0
  have qu1 : (u:ℚ) ≤ 100 := by exact_mod_cast hu1
  have qco0 : (0:ℚ) ≤ (co:ℚ) := by exact_mod_cast hco0
  have qco1 : (co:ℚ) ≤ 100 := by exact_mod_cast hco1
  have qv0 : (0:ℚ) ≤ (v:ℚ) := by exact_mod_cast hv0
  have qv1 : (v:ℚ) ≤ 100 := by exact_mod_cast hv1
  have qt0 : (0:ℚ) ≤ (t:ℚ) := by exact_mod_cast ht0
  have qt1 : (t:ℚ) ≤ 100 := by exact_mod_cast ht1
  constructor
  · simp only [computeDQS, hasTimelinessScore_of_range qt0 qt1,
      sanitizeScore_of_range qc0 qc1, sanitizeScore_of_range qu0 qu1,
      sanitizeScore_of_range qco0 qco1, sanitizeScore_of_range qv0 qv1,
      sanitizeScore_of_range qt0 qt1, DEFAULT_WEIGHTS, redistScale,
      sumWeights4, weightedDefaultDQS]
    norm_num
  refine ⟨?_, ?_⟩
  · simp only [calculateDQS, List.filterMap_cons, id_eq, List.filterMap_nil]
    norm_num
    congr 1
    ring
  · intro d
    cases hdt : hasTimelinessScore d.timeliness <;>
      simp [computeDQS, redistScale, sumWeights4, hdt]

/-- C1 (counterexample): `calculateDQS` of `scoring-engine.ts` does not
return the default-weighted sum of the five scores: at
`{completeness: 100, uniqueness: 0, consistency: 0, validity: 0,
timeliness: 0}` it returns the plain mean 20, while the claimed weighted sum
(normalized default weights) is 25. -/
theorem C1_counterexample :
    calculateDQS ⟨100, 0, 0, 0, some 0⟩ = 20
    ∧ weightedDefaultDQS 100 0 0 0 0 = 25
    ∧ calculateDQS ⟨100, 0, 0, 0, some 0⟩ ≠ weightedDefaultDQS 100 0 0 0 0 := by
  have h1 : calculateDQS ⟨100, 0, 0, 0, some 0⟩ = 20 := by
    simp only [calculateDQS, List.filterMap_cons, id_eq, List.filterMap_nil]
    norm_num [jround_eq_floor]
  have h2 : weightedDefaultDQS 100 0 0 0 0 = 25 := by
    simp only [weightedDefaultDQS, clampScore]
    norm_num [jround_eq_floor]
  exact ⟨h1, h2, by rw [h1, h2]; decide⟩

/-- C1 (witness): the amended statement evaluated at the concrete in-range
scores `{80, 90, 70, 60, 50}`. -/
theorem C1_witness :
    (computeDQS ⟨some 80, some 90, some 70, some 60, some 50⟩
        DEFAULT_WEIGHTS).DQS = weightedDefaultDQS 80 90 70 60 50 := by
  have h := (C1_weighted_default_vs_plain_mean 80 90 70 60 50
    ⟨by norm_num, by norm_num⟩ ⟨by norm_num, by norm_num⟩
    ⟨by norm_num, by norm_num⟩ ⟨by norm_num, by norm_num⟩
    ⟨by norm_num, by norm_num⟩).1
  push_cast at h
  exact h

lemma jround_eighty {T : ℚ} (h1 : 999/1000 ≤ T) (h2 : T ≤ 1001/1000) :
    jround (80 * T) = 80 := by
  rw [jround_eq_floor]
  refine Int.floor_eq_iff.2 ⟨by push_cast; linarith, by push_cast; linarith⟩

lemma eighty_weighted (T : ℚ) (hT : 0 < T) :
    clampScore (jround (80 * T * (if 1/1000 < |T - 1| then 1/T else 1))) = 80 := by
  have hcl : clampScore 80 = 80 := by rw [clampScore]; decide
  split_ifs with h
  · have he : 80 * T * (1/T) = 80 * 1 := by field_simp
    rw [he, jround_eighty (by norm_num) (by norm_num), hcl]
  · have habs := abs_le.mp (le_of_not_lt h)
    rw [mul_one, jround_eighty (by linarith [habs.1]) (by linarith [habs.2]), hcl]

/-- C2 (amended): the spec-modelled weighted engine `computeDQS`, given the
four required scores and no timeliness, redistributes the default timeliness
weight proportionally, so the DQS equals the weighted average of the four
scores under the default weights renormalized to sum to 1; and with any
equal positive four weights (any non-negative timeliness weight), the input
`{80, 80, 80, 80}` yields DQS 80.  The `calculateDQS` of `scoring-engine.ts`
does not satisfy the renormalized-weighted-average property (see the
counterexample); it agrees only in special cases such as four equal
scores. -/
theorem C2_redistribution (c u co v : ℤ)
    (hc : scoreInRange c) (hu : scoreInRange u) (hco : scoreInRange co)
    (hv : scoreInRange v) (a wt : ℚ) (ha : 0 < a) (hwt : 0 ≤ wt) :
    (computeDQS ⟨some (c:ℚ), some (u:ℚ), some (co:ℚ), some (v:ℚ), none⟩
        DEFAULT_WEIGHTS).DQS
      = weightedFourDefaultDQS (c:ℚ) (u:ℚ) (co:ℚ) (v:ℚ)
    ∧ (computeDQS ⟨some 80, some 80, some 80, some 80, none⟩ ⟨a, a, a, a, wt⟩).DQS = 80 := by
  obtain ⟨hc0, hc1⟩ := hc
  obtain ⟨hu0, hu1⟩ := hu
  obtain ⟨hco0, hco1⟩ := hco
  obtain ⟨hv0, hv1⟩ := hv
  have qc0 : (0:ℚ) ≤ (c:ℚ) := by exact_mod_cast hc0
  have qc1 : (c:ℚ) ≤ 100 := by exact_mod_cast hc1
  have qu0 : (0:ℚ) ≤ (u:ℚ) := by exact_mod_cast hu0
  have qu1 : (u:ℚ) ≤ 100 := by exact_mod_cast hu1
  have qco0 : (0:ℚ) ≤ (co:ℚ) := by exact_mod_cast hco0
  have qco1 : (co:ℚ) ≤ 100 := by exact_mod_cast hco1
  have qv0 : (0:ℚ) ≤ (v:ℚ) := by exact_mod_cast hv0
  have qv1 : (v:ℚ) ≤ 100 := by exact_mod_cast hv1
  constructor
  · have hnone : sanitizeScore none = 0 := rfl
    simp only [computeDQS, hasTimelinessScore,
      sanitizeScore_of_range qc0 qc1, sanitizeScore_of_range qu0 qu1,
      sanitizeScore_of_range qco0 qco1, sanitizeScore_of_range qv0 qv1,
      hnone, DEFAULT_WEIGHTS, redistScale, sumWeights4,
      weightedFourDefaultDQS]
    norm_num
    have harg : ((c:ℚ) * (5/17) + (u:ℚ) * (4/17) + (co:ℚ) * (3/17) + (v:ℚ) * (5/17))
        = ((c:ℚ) * (1/4) + (u:ℚ) * (1/5) + (co:ℚ) * (3/20) + (v:ℚ) * (1/4)) / (17/20) := by
      ring
    rw [harg]
  · have hs4 : (0:ℚ) < a + a + a + a := by linarith
    have hs4' : ¬ (a + a + a + a = 0) := ne_of_gt hs4
    have h80 : sanitizeScore (some (80:ℚ)) = 80 :=
      sanitizeScore_of_range (by norm_num) (by norm_num)
    by_cases hwtz : wt = 0
    · subst hwtz
      simp only [computeDQS, hasTimelinessScore, redistScale, sumWeights4, h80]
      norm_num [hs4']
      have hsplit : (if 1 / 1000 < |a + a + a + a - 1| then
            (80 * a + 80 * a + 80 * a + 80 * a) * (a + a + a + a)⁻¹
          else 80 * a + 80 * a + 80 * a + 80 * a)
          = 80 * (a + a + a + a)
            * (if 1 / 1000 < |a + a + a + a - 1| then 1 / (a + a + a + a) else 1) := by
        split_ifs <;> ring
      rw [hsplit]
      exact eighty_weighted _ hs4
    · simp only [computeDQS, hasTimelinessScore, redistScale, sumWeights4, h80]
      norm_num [hwtz, hs4']
      have hTeq : (a + a + a + a) * ((a + a + a + a + wt) / (a + a + a + a))
          = a + a + a + a + wt := by field_simp
      have hTpos : 0 < (a + a + a + a) * ((a + a + a + a + wt) / (a + a + a + a)) := by
        rw [hTeq]; linarith
      rw [if_neg (show ¬(a + a + a + a + wt = 0) by intro hh; linarith)]
      have hs4wt : a + a + a + a + wt ≠ 0 := by intro hh; linarith
      convert eighty_weighted ((a + a + a + a) * ((a + a + a + a + wt) / (a + a + a + a))) hTpos using 2
      congr 1
      split_ifs with hcond <;> (field_simp; ring)

/-- C2 (counterexample): at scores `{completeness: 100, uniqueness: 0,
consistency: 0, validity: 0}` with no timeliness, `calculateDQS` of
`scoring-engine.ts` returns the plain mean 25, not the claimed
renormalized-weighted average 29. -/
theorem C2_counterexample :
    calculateDQS ⟨100, 0, 0, 0, none⟩ = 25
    ∧ weightedFourDefaultDQS 100 0 0 0 = 29
    ∧ calculateDQS ⟨100, 0, 0, 0, none⟩ ≠ weightedFourDefaultDQS 100 0 0 0 := by
  have h1 : calculateDQS ⟨100, 0, 0, 0, none⟩ = 25 := by
    simp only [calculateDQS, List.filterMap_cons, id_eq, List.filterMap_nil]
    norm_num [jround_eq_floor]
  have h2 : weightedFourDefaultDQS 100 0 0 0 = 29 := by
    simp only [weightedFourDefaultDQS, clampScore]
    norm_num [jround_eq_floor]
  exact ⟨h1, h2, by rw [h1, h2]; decide⟩

/-- C2 (witness): the amended statement evaluated at the concrete scores
`{100, 0, 0, 0}` (without timeliness) and at the equal weight map with
common weight `1/5`. -/
theorem C2_witness :
    (computeDQS ⟨some 100, some 0, some 0, some 0, none⟩
        DEFAULT_WEIGHTS).DQS = weightedFourDefaultDQS 100 0 0 0
    ∧ (computeDQS ⟨some 80, some 80, some 80, some 80, none⟩
        ⟨1/5, 1/5, 1/5, 1/5, 1/5⟩).DQS = 80 := by
  have h := C2_redistribution 100 0 0 0
    ⟨by norm_num, by norm_num⟩ ⟨by norm_num, by norm_num⟩
    ⟨by norm_num, by norm_num⟩ ⟨by norm_num, by norm_num⟩
    (1/5) (1/5) (by norm_num) (by norm_num)
  obtain ⟨h1, h2⟩ := h
  push_cast at h1
  exact ⟨h1, h2⟩

/-- A concrete date parser used by the concrete-input witnesses: it parses
exactly the string `"D"`, as the epoch instant 0. -/
def parse0 : String → Option ℚ := fun s => if s = "D" then some 0 else none

/-- C3: the spec-modelled `computeAllScores` returns
`{completeness 0, uniqueness 0, consistency 0, validity 0, timeliness 50}`
on the empty row list, and returns timeliness exactly 50 on every row list
none of whose column names matches a date keyword, regardless of the row
contents and of the date parser. -/
theorem C3_empty_and_neutral_timeliness (parseDate : String → Option ℚ)
    (now : ℚ) (rows : List Row) :
    computeAllScores parseDate now [] = ⟨0, 0, 0, 0, 50⟩
    ∧ ((∀ col ∈ extractColumns rows, ∀ kw ∈ dateKeywords,
          strHas kw.data (lowerStr col).data = false) →
        (computeAllScores parseDate now rows).timeliness = 50) := by
  constructor
  · rfl
  · intro hkw
    have hdet : detectDateColumn parseDate rows (extractColumns rows) = none := by
      rw [detectDateColumn]
      split_ifs with h
      · rfl
      · rw [List.find?_eq_none]
        intro col hcol
        rw [colQualifies]
        intro hq
        rcases Bool.and_eq_true_iff.mp hq with ⟨hany, _⟩
        obtain ⟨kw, hkwmem, hkwtrue⟩ := List.any_eq_true.mp hany
        rw [hkw col hcol kw hkwmem] at hkwtrue
        exact Bool.false_ne_true hkwtrue
    simp only [computeAllScores, computeTimeliness, hdet]

/-- C3 (witness): concrete evaluation at the one-row dataset with the single
non-date column `"a"`. -/
theorem C3_witness :
    (computeAllScores parse0 0 [[("a", "x")]]).timeliness = 50 :=
  (C3_empty_and_neutral_timeliness parse0 0 [[("a", "x")]]).2 (by decide)

/-- C4: for every input row list, every dimension score returned by the five
calculators and by the spec-modelled `computeAllScores` is an integer in
`[0, 100]` (integrality is by construction: all scores are values of `ℤ`). -/
theorem C4_scores_integer_in_range (parseDate : String → Option ℚ) (now : ℚ)
    (rows : List Row) (columns : List String) (dateColumnName : String) :
    scoreInRange (calculateCompleteness rows columns)
    ∧ scoreInRange (calculateUniqueness rows columns)
    ∧ scoreInRange (calculateConsistency rows columns)
    ∧ scoreInRange (calculateValidity rows columns)
    ∧ scoreInRange (calculateTimeliness parseDate now rows dateColumnName)
    ∧ scoreInRange (computeAllScores parseDate now rows).completeness
    ∧ scoreInRange (computeAllScores parseDate now rows).uniqueness
    ∧ scoreInRange (computeAllScores parseDate now rows).consistency
    ∧ scoreInRange (computeAllScores parseDate now rows).validity
    ∧ scoreInRange (computeAllScores parseDate now rows).timeliness :=
  ⟨calculateCompleteness_range rows columns,
   calculateUniqueness_range rows columns,
   calculateConsistency_range rows columns,
   calculateValidity_range rows columns,
   calculateTimeliness_range parseDate now rows dateColumnName,
   calculateCompleteness_range rows (extractColumns rows),
   calculateUniqueness_range rows (extractColumns rows),
   calculateConsistency_range rows (extractColumns rows),
   calculateValidity_range rows (extractColumns rows),
   computeTimeliness_range parseDate now rows⟩

/-- C5: the engine is total and degrades instead of failing: the
spec-modelled `computeAllScores` always yields well-formed scores in
`[0, 100]`, the weighted `computeDQS` always yields a DQS in `[0, 100]` for
any input, and a key missing from a (non-first) row is read exactly as an
empty cell — adding the missing key with value `""` changes nothing. -/
theorem C5_never_fails_missing_key_empty (parseDate : String → Option ℚ)
    (now : ℚ) (r0 r : Row) (l m : List Row) (k : String) (rows : List Row)
    (d : DQSInput) (w : WeightMap) (hmiss : rowGet r k = none) :
    computeAllScores parseDate now (r0 :: (l ++ r :: m))
      = computeAllScores parseDate now (r0 :: (l ++ (r ++ [(k, "")]) :: m))
    ∧ scoreInRange (computeAllScores parseDate now rows).completeness
    ∧ scoreInRange (computeAllScores parseDate now rows).uniqueness
    ∧ scoreInRange (computeAllScores parseDate now rows).consistency
    ∧ scoreInRange (computeAllScores parseDate now rows).validity
    ∧ scoreInRange (computeAllScores parseDate now rows).timeliness
    ∧ scoreInRange (computeDQS d w).DQS := by
  have hF : List.Forall₂ rowEquiv (r0 :: (l ++ r :: m))
      (r0 :: (l ++ (r ++ [(k, "")]) :: m)) :=
    List.Forall₂.cons (rowEquiv_refl r0)
      (List.rel_append (List.forall₂_same.2 fun x _ => rowEquiv_refl x)
        (List.Forall₂.cons (rowEquiv_extend r k hmiss)
          (List.forall₂_same.2 fun x _ => rowEquiv_refl x)))
  refine ⟨computeAllScores_congr parseDate now hF rfl,
    calculateCompleteness_range rows (extractColumns rows),
    calculateUniqueness_range rows (extractColumns rows),
    calculateConsistency_range rows (extractColumns rows),
    calculateValidity_range rows (extractColumns rows),
    computeTimeliness_range parseDate now rows,
    computeDQS_range d w⟩

/-- C5 (witness): the second row is empty; treating its missing key `"a"` as
the empty cell gives the same scores as materializing `("a", "")`. -/
theorem C5_witness :
    computeAllScores parse0 0 [[("a", "1")], []]
      = computeAllScores parse0 0 [[("a", "1")], [("a", "")]] :=
  (C5_never_fails_missing_key_empty parse0 0 [("a", "1")] [] [] [] "a" []
    ⟨none, none, none, none, none⟩ DEFAULT_WEIGHTS rfl).1

/-- C6 (amended): `calculateUniqueness` computes exactly the claimed
per-column formula — distinct trimmed non-empty values over their count,
times 100, an all-empty column counting as 100 — rounded over the column
mean, with 0 on an empty row or column list.  (The claim's converse "returns
0 only when there are no rows or no columns" fails: heavy duplication can
round the mean below one half, see the counterexample.) -/
theorem C6_uniqueness_formula (rows : List Row) (columns : List String) :
    calculateUniqueness rows columns = uniquenessSpec rows columns := by
  by_cases h1 : rows = [] ∨ columns = []
  · simp only [calculateUniqueness, uniquenessSpec, if_pos h1]
  · have hlen : ¬ columns.length = 0 := fun hh =>
      h1 (Or.inr (List.length_eq_zero.mp hh))
    simp only [calculateUniqueness, uniquenessSpec, if_neg h1, if_neg hlen,
      List.map_congr_left (fun c _ => perColUniq_eq_spec rows c : ∀ c ∈ columns,
        perColUniq rows c = perColUniqSpec rows c)]

/-- C6 (counterexample): a single-column dataset of 201 identical non-empty
rows is neither empty nor column-free, yet its uniqueness score is 0 — the
per-column uniqueness 100/201 rounds below one half — so "returns 0 only
when there are no rows or no columns" is false. -/
theorem C6_counterexample :
    calculateUniqueness (List.replicate 201 [("a", "x")]) ["a"] = 0
    ∧ List.replicate 201 ([("a", "x")] : Row) ≠ []
    ∧ (["a"] : List String) ≠ [] := by
  have hrep : List.replicate 201 ([("a", "x")] : Row) ≠ [] := by
    intro h
    have h2 := congrArg List.length h
    rw [List.length_replicate, List.length_nil] at h2
    exact absurd h2 (by norm_num)
  have hcv : colValues (List.replicate 201 [("a", "x")]) "a"
      = List.replicate 201 "x" := by
    rw [colValues, List.map_replicate,
      show jsTrim (getCell [("a", "x")] "a") = "x" from rfl]
    exact List.filter_eq_self.2 fun a ha => by
      rw [List.eq_of_mem_replicate ha]; decide
  have hded : (List.replicate 201 "x").dedup = ["x"] :=
    List.replicate_dedup (by norm_num)
  have hper : perColUniq (List.replicate 201 [("a", "x")]) "a" = 100 / 201 := by
    simp only [perColUniq, hcv, hded, List.length_replicate, List.length_cons,
      List.length_nil]
    norm_num
  refine ⟨?_, hrep, by decide⟩
  simp only [calculateUniqueness, List.map_cons, List.map_nil, List.sum_cons,
    List.sum_nil, hper, List.length_cons, List.length_nil]
  rw [if_neg (by
    rintro (h | h)
    · exact hrep h
    · exact absurd h (by decide))]
  rw [if_neg (by norm_num)]
  rw [jround_eq_floor]
  norm_num

/-- C7: validity depends only on the first column — two datasets with the
same row count, the same first column name, and identical cell values in
that column get the same validity score — and the score is exactly the
rounded fraction of rows whose key-field trimmed value is non-empty. -/
theorem C7_validity_first_column_only (rows1 rows2 : List Row)
    (cols1 cols2 : List String) (k : String)
    (h1 : cols1.head? = some k) (h2 : cols2.head? = some k)
    (hlen : rows1.length = rows2.length)
    (hvals : rows1.map (fun r => getCell r k) = rows2.map (fun r => getCell r k)) :
    calculateValidity rows1 cols1 = calculateValidity rows2 cols2
    ∧ calculateValidity rows1 cols1
      = jround (((rows1.filter fun r =>
          decide (jsTrim (getCell r k) ≠ "")).length : ℚ)
          / (rows1.length : ℚ) * 100) := by
  cases cols1 with
  | nil => simp at h1
  | cons a t1 =>
    cases cols2 with
    | nil => simp at h2
    | cons b t2 =>
      have ha : a = k := by simpa using h1
      have hb : b = k := by simpa using h2
      rw [ha, hb]
      have e1 : ∀ rows : List Row,
          (rows.filter fun r => decide (jsTrim (getCell r k) ≠ "")).length
          = ((rows.map fun r => getCell r k).filter fun v =>
              decide (jsTrim v ≠ "")).length := by
        intro rows
        rw [List.filter_map, List.length_map]
        rfl
      have hcount : (rows1.filter fun r => decide (jsTrim (getCell r k) ≠ "")).length
          = (rows2.filter fun r => decide (jsTrim (getCell r k) ≠ "")).length := by
        rw [e1 rows1, e1 rows2, hvals]
      by_cases hnil : rows1 = []
      · have hnil2 : rows2 = [] := by
          rw [hnil] at hlen
          exact List.length_eq_zero.mp hlen.symm
        subst hnil
        subst hnil2
        refine ⟨rfl, ?_⟩
        simp only [calculateValidity, if_pos rfl, List.filter_nil,
          List.length_nil]
        rw [jround_eq_floor]
        norm_num
      · have hnil2 : rows2 ≠ [] := fun hh =>
          hnil (List.length_eq_zero.mp (by rw [hlen, hh]; rfl))
        refine ⟨?_, ?_⟩
        · simp only [calculateValidity, if_neg hnil, if_neg hnil2, hcount, hlen]
        · simp only [calculateValidity, if_neg hnil]

/-- C7 (witness): two one-row datasets sharing the key column `"id"` but
differing in the second column get the same validity score. -/
theorem C7_witness :
    calculateValidity [[("id", "1"), ("x", "A")]] ["id", "x"]
      = calculateValidity [[("id", "1"), ("x", "B")]] ["id", "x"] :=
  (C7_validity_first_column_only [[("id", "1"), ("x", "A")]]
    [[("id", "1"), ("x", "B")]] ["id", "x"] ["id", "x"] "id"
    rfl rfl rfl (by decide)).1

/-- C8: `calculateConsistency` computes exactly the claimed per-column
formula — 100 for no non-empty values, 100 for exactly one, otherwise
`max 0 (100 - meanDeviation / max meanLength 1 * 100)` — rounded over the
column mean. -/
theorem C8_consistency_formula (rows : List Row) (columns : List String) :
    calculateConsistency rows columns = consistencySpec rows columns := by
  by_cases h1 : rows = [] ∨ columns = []
  · simp only [calculateConsistency, consistencySpec, if_pos h1]
  · have hlen : ¬ columns.length = 0 := fun hh =>
      h1 (Or.inr (List.length_eq_zero.mp hh))
    simp only [calculateConsistency, consistencySpec, if_neg h1, if_neg hlen,
      List.map_congr_left (fun c _ => perColCons_eq_spec rows c : ∀ c ∈ columns,
        perColCons rows c = perColConsSpec rows c)]

/-- The mean age in hours over the parsed date values (claim-side
abbreviation for the timeliness threshold statements). -/
def meanAge (parseDate : String → Option ℚ) (now : ℚ) (rows : List Row)
    (col : String) : ℚ :=
  (timelinessAges parseDate now rows col).sum
    / ((timelinessAges parseDate now rows col).length : ℚ)

/-- C9: on a non-empty row list, `calculateTimeliness` returns 50 when no
value parsed, and otherwise maps the mean age through the thresholds with
exclusive upper bounds: `< 1 → 100`, `< 6 → 95`, `< 24 → 85`, `< 72 → 70`,
`< 168 → 50`, `≥ 168 → 30` (empty and unparsable values having been skipped
in `timelinessAges`). -/
theorem C9_timeliness_thresholds (parseDate : String → Option ℚ) (now : ℚ)
    (rows : List Row) (col : String) (hrows : rows ≠ []) :
    (timelinessAges parseDate now rows col = [] →
      calculateTimeliness parseDate now rows col = 50)
    ∧ (timelinessAges parseDate now rows col ≠ [] →
        (meanAge parseDate now rows col < 1 →
          calculateTimeliness parseDate now rows col = 100)
        ∧ (1 ≤ meanAge parseDate now rows col →
            meanAge parseDate now rows col < 6 →
          calculateTimeliness parseDate now rows col = 95)
        ∧ (6 ≤ meanAge parseDate now rows col →
            meanAge parseDate now rows col < 24 →
          calculateTimeliness parseDate now rows col = 85)
        ∧ (24 ≤ meanAge parseDate now rows col →
            meanAge parseDate now rows col < 72 →
          calculateTimeliness parseDate now rows col = 70)
        ∧ (72 ≤ meanAge parseDate now rows col →
            meanAge parseDate now rows col < 168 →
          calculateTimeliness parseDate now rows col = 50)
        ∧ (168 ≤ meanAge parseDate now rows col →
          calculateTimeliness parseDate now rows col = 30)) := by
  constructor
  · intro hages
    simp only [calculateTimeliness, if_neg hrows, if_pos hages]
  · intro hne
    refine ⟨?_, ?_, ?_, ?_, ?_, ?_⟩
    · intro hb
      rw [meanAge] at hb
      simp only [calculateTimeliness, if_neg hrows, if_neg hne]
      rw [if_pos hb]
    · intro ha hb
      rw [meanAge] at ha hb
      simp only [calculateTimeliness, if_neg hrows, if_neg hne]
      rw [if_neg (not_lt.2 ha), if_pos hb]
    · intro ha hb
      rw [meanAge] at ha hb
      simp only [calculateTimeliness, if_neg hrows, if_neg hne]
      rw [if_neg (not_lt.2 (by linarith)), if_neg (not_lt.2 ha), if_pos hb]
    · intro ha hb
      rw [meanAge] at ha hb
      simp only [calculateTimeliness, if_neg hrows, if_neg hne]
      rw [if_neg (not_lt.2 (by linarith)), if_neg (not_lt.2 (by linarith)),
        if_neg (not_lt.2 ha), if_pos hb]
    · intro ha hb
      rw [meanAge] at ha hb
      simp only [calculateTimeliness, if_neg hrows, if_neg hne]
      rw [if_neg (not_lt.2 (by linarith)), if_neg (not_lt.2 (by linarith)),
        if_neg (not_lt.2 (by linarith)), if_neg (not_lt.2 ha), if_pos hb]
    · intro ha
      rw [meanAge] at ha
      simp only [calculateTimeliness, if_neg hrows, if_neg hne]
      rw [if_neg (not_lt.2 (by linarith)), if_neg (not_lt.2 (by linarith)),
        if_neg (not_lt.2 (by linarith)), if_neg (not_lt.2 (by linarith)),
        if_neg (not_lt.2 ha)]

/-- C9 (witness): one row whose date cell parses to the epoch, scored two
hours later — the mean age 2 falls in `[1, 6)` and yields 95. -/
theorem C9_witness :
    calculateTimeliness parse0 7200000 [[("t", "D")]] "t" = 95 := by
  have hD : jsTrim (getCell [("t", "D")] "t") = "D" := by decide
  have hages : timelinessAges parse0 7200000 [[("t", "D")]] "t" = [2] := by
    simp [timelinessAges, parse0, hD]
    norm_num
  have hmean : meanAge parse0 7200000 [[("t", "D")]] "t" = 2 := by
    rw [meanAge, hages]
    norm_num
  exact ((C9_timeliness_thresholds parse0 7200000 [[("t", "D")]] "t"
      (List.cons_ne_nil _ _)).2
    (by rw [hages]; exact List.cons_ne_nil _ _)).2.1
    (by rw [hmean]; norm_num) (by rw [hmean]; norm_num)

lemma listSum_neg {l : List ℚ} (hne : l ≠ []) (h : ∀ x ∈ l, x < 0) :
    l.sum < 0 := by
  induction l with
  | nil => exact absurd rfl hne
  | cons x t ih =>
    rw [List.sum_cons]
    rcases eq_or_ne t [] with rfl | hts
    · simpa using h x (by simp)
    · have ht := ih hts fun y hy => h y (List.mem_cons_of_mem x hy)
      have hx := h x (List.mem_cons_self x t)
      linarith

/-- C10: every accumulated age is `(now - parsed date) / 3600000` and is
negative exactly for future-dated values; whenever the mean age is below 1
hour — in particular when every parsed date of the column lies strictly in
the future — the timeliness score is 100 (given at least one value
parsed). -/
theorem C10_negative_future_ages (parseDate : String → Option ℚ) (now : ℚ)
    (rows : List Row) (col : String)
    (hne : timelinessAges parseDate now rows col ≠ []) :
    (∀ x ∈ timelinessAges parseDate now rows col, ∃ r ∈ rows, ∃ t : ℚ,
        parseDate (jsTrim (getCell r col)) = some t ∧ x = (now - t) / 3600000)
    ∧ (meanAge parseDate now rows col < 1 →
        calculateTimeliness parseDate now rows col = 100)
    ∧ ((∀ r ∈ rows, ∀ t : ℚ, parseDate (jsTrim (getCell r col)) = some t →
          now < t) →
        calculateTimeliness parseDate now rows col = 100) := by
  have hrows : rows ≠ [] := by
    intro hh
    rw [hh] at hne
    exact hne rfl
  have part1 : ∀ x ∈ timelinessAges parseDate now rows col, ∃ r ∈ rows,
      ∃ t : ℚ, parseDate (jsTrim (getCell r col)) = some t
        ∧ x = (now - t) / 3600000 := by
    intro x hx
    rw [timelinessAges] at hx
    obtain ⟨r, hr, hfr⟩ := List.mem_filterMap.mp hx
    have hfr' : (if jsTrim (getCell r col) = "" then none
        else (parseDate (jsTrim (getCell r col))).map
          fun t => (now - t) / 3600000) = some x := hfr
    by_cases hempty : jsTrim (getCell r col) = ""
    · rw [if_pos hempty] at hfr'
      exact Option.noConfusion hfr'
    · rw [if_neg hempty] at hfr'
      obtain ⟨t, ht, hxt⟩ := Option.map_eq_some'.mp hfr'
      exact ⟨r, hr, t, ht, hxt.symm⟩
  have part2 : meanAge parseDate now rows col < 1 →
      calculateTimeliness parseDate now rows col = 100 := by
    intro hmean
    rw [meanAge] at hmean
    simp only [calculateTimeliness, if_neg hrows, if_neg hne]
    rw [if_pos hmean]
  refine ⟨part1, part2, ?_⟩
  intro hfut
  have hneg : ∀ x ∈ timelinessAges parseDate now rows col, x < 0 := by
    intro x hx
    obtain ⟨r, hr, t, ht, hxe⟩ := part1 x hx
    have hlt := hfut r hr t ht
    rw [hxe]
    exact div_neg_of_neg_of_pos (by linarith) (by norm_num)
  have hsum := listSum_neg hne hneg
  have hlenpos : (0:ℚ) < ((timelinessAges parseDate now rows col).length : ℚ) := by
    have hz : (timelinessAges parseDate now rows col).length ≠ 0 := fun hh =>
      hne (List.length_eq_zero.mp hh)
    exact_mod_cast Nat.pos_of_ne_zero hz
  refine part2 ?_
  rw [meanAge]
  have := div_neg_of_neg_of_pos hsum hlenpos
  linarith

/-- C10 (witness): one row whose date cell parses to the epoch, scored one
hour before the epoch — the single age is −1, all parsed dates lie in the
future, and the score is 100. -/
theorem C10_witness :
    calculateTimeliness parse0 (-3600000) [[("t", "D")]] "t" = 100 := by
  have hD : jsTrim (getCell [("t", "D")] "t") = "D" := by decide
  have hages : timelinessAges parse0 (-3600000) [[("t", "D")]] "t" = [-1] := by
    simp [timelinessAges, parse0, hD]
  refine (C10_negative_future_ages parse0 (-3600000) [[("t", "D")]] "t"
    (by rw [hages]; exact List.cons_ne_nil _ _)).2.2 ?_
  intro r hr t ht
  have hr2 : r = [("t", "D")] := by simpa using hr
  subst hr2
  rw [hD] at ht
  simp only [parse0, if_pos rfl] at ht
  rw [← Option.some.inj ht]
  norm_num
